import Mathlib

/-!
Verification of the feed-scraper pipeline (`src/scraper.py`).

The Python source is shallowly embedded: every function below is a direct
translation of the function of the same name in `scraper.py`; `main` is
decomposed into the named stages it performs in sequence (collecting items,
sorting, enrichment, payload and RSS assembly).  Python strings are modelled
as Lean `String`s and all operations work on their underlying `List Char`
(Python strings are sequences of code points, as is `String.data`):

* `s.strip()`  → `pyStrip` (leading/trailing whitespace removed; we model the
  ASCII whitespace characters, which is what `Char.isWhitespace` tests),
* `s.lower()`  → `pyLower` (per-character lowercasing, as in the ASCII range),
* `a or b` on strings → `pyOr` (first operand unless it is empty/falsy),
* `needle in hay` → `listContains`,
* `s.replace(old, new)` → `pyReplace` (leftmost, non-overlapping),
* `s[:n]` → `List.take n`, `s[1:-1]` → `drop 1` then `dropLast`,
* `str.startswith`/`endswith` on a string → `prefixB`/`suffixB`.

External collaborators are passed in as functions: `feedparser.parse` as
`parse : String → Except String (List Entry)` (an `Entry` holds the fields
`entry_to_item` reads), and the transformers summarisation pipeline as
`Option (String → Option String)` (`none` when the import failed, and per
call `none` models the service raising an exception).
-/

namespace Scraper

/-- Bool test that `pat` is a prefix of `l` (Python `s.startswith`, and the
single step of substring search). -/
def prefixB : List Char → List Char → Bool
  | [], _ => true
  | _ :: _, [] => false
  | a :: as, b :: bs => a == b && prefixB as bs

/-- Bool test that `pat` is a suffix of `l` (Python `s.endswith`). -/
def suffixB (pat l : List Char) : Bool :=
  prefixB pat.reverse l.reverse

/-- Python `needle in hay` for strings: contiguous-substring test. -/
def listContains : List Char → List Char → Bool
  | [], needle => needle.isEmpty
  | c :: t, needle => prefixB needle (c :: t) || listContains t needle

/-- Python `s.strip()`: drop leading and trailing whitespace. -/
def pyStrip (s : String) : String :=
  String.mk (((s.data.dropWhile Char.isWhitespace).reverse.dropWhile
    Char.isWhitespace).reverse)

/-- Python `s.lower()` (ASCII range, as `Char.toLower`). -/
def pyLower (s : String) : String :=
  String.mk (s.data.map Char.toLower)

/-- Python `a or b` for strings: `a` when truthy (non-empty), else `b`. -/
def pyOr (a b : String) : String :=
  if a = "" then b else a

/-- Python `a <= b` on strings, on the character lists: lexicographic by
code point, a proper prefix comparing below its extensions. -/
def strLeB : List Char → List Char → Bool
  | [], _ => true
  | _ :: _, [] => false
  | a :: as, b :: bs => if a = b then strLeB as bs else decide (a.toNat < b.toNat)

/-- Python `a <= b` on strings. -/
def pyLe (a b : String) : Bool := strLeB a.data b.data

/-- The recursion of Python `s.replace(old, new)`, with explicit fuel so
that the definition is structurally recursive (and hence computable by the
kernel); `replaceAll` supplies enough fuel.  Scans left to right, replacing
non-overlapping occurrences.  Python's behaviour for an empty `old`
(inserting `new` between all characters) is never exercised by the scraper,
so the empty pattern is treated as matching nowhere. -/
def replaceAllGo (pat rep : List Char) : Nat → List Char → List Char
  | _, [] => []
  | 0, l => l
  | fuel + 1, c :: rest =>
    if !pat.isEmpty && prefixB pat (c :: rest) then
      rep ++ replaceAllGo pat rep fuel ((c :: rest).drop pat.length)
    else
      c :: replaceAllGo pat rep fuel rest

/-- Python `s.replace(old, new)` on lists of characters. -/
def replaceAll (pat rep s : List Char) : List Char :=
  replaceAllGo pat rep s.length s

/-- `s.replace(old, new)` on `String`s. -/
def pyReplace (s old new : String) : String :=
  String.mk (replaceAll old.data new.data s.data)

/-- scraper.py line 48: `norm` lowercases (its `or ""` guard is a no-op on
actual strings). -/
def norm (s : String) : String := pyLower s

/-- The body of the `for kw in keywords` loop of `matches_keywords`
(scraper.py lines 56-66): `none` when the keyword is skipped or does not
match, `some kw_clean` when it is appended to `matched`. -/
def kwMatch (t : String) (kw : String) : Option String :=
  let kw_clean := pyStrip kw
  if kw_clean = "" then none
  else if prefixB ['\"'] kw_clean.data && suffixB ['\"'] kw_clean.data then
    let phrase := pyLower (String.mk ((kw_clean.data.drop 1).dropLast))
    if listContains t.data phrase.data then some kw_clean else none
  else
    if listContains t.data (pyLower kw_clean).data then some kw_clean else none

/-- scraper.py lines 52-67: return the list of keywords that match `text`,
in keyword-list order.  The loop appends `kw_clean` for each matching
keyword, which is exactly a `filterMap`. -/
def matches_keywords (text : String) (keywords : List String) : List String :=
  keywords.filterMap (kwMatch (norm text))

/-- The quote-stripping step alone: a double-quote-delimited keyword is
replaced by its inner phrase (`kw_clean[1:-1]`), others are unchanged. -/
def quoteStrip (kw : String) : String :=
  if prefixB ['\"'] kw.data && suffixB ['\"'] kw.data then
    String.mk ((kw.data.drop 1).dropLast)
  else kw

/-- Claim C1 read literally: the returned entries are the configured
keywords themselves (not their trimmed forms), kept when non-empty, not
whitespace-only, and their phrase-stripped lowercased form is a substring
of the lowercased text. -/
def claimC1_matches (text : String) (keywords : List String) : List String :=
  keywords.filter (fun kw =>
    !(pyStrip kw == "") && listContains (norm text).data (pyLower (quoteStrip kw)).data)

/-- Claim C1 as amended: the returned entries are the whitespace-trimmed
keywords, in configured order, kept when the trimmed form is non-empty and
its phrase-stripped, lowercased form is a substring of the lowercased
text. -/
def specC1_matches (text : String) (keywords : List String) : List String :=
  (keywords.map pyStrip).filter (fun c =>
    !(c == "") && listContains (norm text).data (pyLower (quoteStrip c)).data)

/-- The character of a decimal digit (`Char.ofNat (48 + n)` is `'0'`…`'9'`
for `n ≤ 9`). -/
def digitChar (n : Nat) : Char := Char.ofNat (48 + n)

/-- Python `str(n)` for a natural number, with explicit fuel for structural
recursion; `natDigits` supplies enough fuel (the fuel-0 base case is only
reached at `n = 0`, where it agrees with the real body). -/
def natDigitsGo : Nat → Nat → List Char
  | 0, n => [digitChar (n % 10)]
  | fuel + 1, n =>
    if n < 10 then [digitChar n] else natDigitsGo fuel (n / 10) ++ [digitChar (n % 10)]

/-- Python `str(n)` for a natural number: decimal digits, no sign. -/
def natDigits (n : Nat) : List Char :=
  natDigitsGo n n

/-- Zero-padding to width `w`, as `%02d`/`%04d` formatting. -/
def pad (w : Nat) (n : Nat) : List Char :=
  List.replicate (w - (natDigits n).length) '0' ++ natDigits n

/-- The first six fields of a `time.struct_time` as `feedparser` returns one
(`published_parsed`/`updated_parsed`); scraper.py line 87 passes them to
`datetime(*published_parsed[:6], tzinfo=timezone.utc)`. -/
structure TimeStruct where
  year : Nat
  month : Nat
  day : Nat
  hour : Nat
  minute : Nat
  second : Nat
deriving DecidableEq

/-- `datetime(y, mo, d, h, mi, s, tzinfo=timezone.utc).isoformat()`:
`YYYY-MM-DDTHH:MM:SS+00:00` (microsecond is 0, so no fraction is
printed). -/
def isoformatUTC (t : TimeStruct) : String :=
  String.mk (pad 4 t.year ++ '-' :: pad 2 t.month ++ '-' :: pad 2 t.day
    ++ 'T' :: pad 2 t.hour ++ ':' :: pad 2 t.minute ++ ':' :: pad 2 t.second
    ++ ['+', '0', '0', ':', '0', '0'])

/-- `datetime.now(timezone.utc).isoformat()`: as `isoformatUTC` but with the
clock's microsecond field, which `isoformat` prints as `.ffffff` when it is
non-zero and omits when it is zero. -/
def isoformatUTCMicro (t : TimeStruct) (micro : Nat) : String :=
  String.mk (pad 4 t.year ++ '-' :: pad 2 t.month ++ '-' :: pad 2 t.day
    ++ 'T' :: pad 2 t.hour ++ ':' :: pad 2 t.minute ++ ':' :: pad 2 t.second
    ++ (if micro = 0 then [] else '.' :: pad 6 micro)
    ++ ['+', '0', '0', ':', '0', '0'])

/-- scraper.py line 270: `generated_at` is the current UTC instant with the
`+00:00` offset rewritten to the `Z` suffix. -/
def generated_at (t : TimeStruct) (micro : Nat) : String :=
  pyReplace (isoformatUTCMicro t micro) "+00:00" "Z"

/-- The regex engine's step for `<.*?>` at a `<`: in Python `.` does not
match a newline, and the lazy `.*?` stops at the first `>`, so the match
(when it exists) runs to the first `>` with no intervening newline.
Returns the remainder after that `>`, or `none` when the pattern cannot
match here. -/
def findGt : List Char → Option (List Char)
  | [] => none
  | c :: r => if c = '>' then some r else if c = '\n' then none else findGt r

/-- The recursion of `re.sub(r"<.*?>", "", s)`, with explicit fuel for
structural recursion; `stripTags` supplies enough fuel.  Scan left to
right; at a `<` that begins a match, delete through the matching `>` and
continue after it; every other character is kept. -/
def stripTagsGo : Nat → List Char → List Char
  | _, [] => []
  | 0, l => l
  | fuel + 1, c :: rest =>
    if c = '<' then
      match findGt rest with
      | some rest' => stripTagsGo fuel rest'
      | none => c :: stripTagsGo fuel rest
    else c :: stripTagsGo fuel rest

/-- `re.sub(r"<.*?>", "", s)` (scraper.py line 92). -/
def stripTags (l : List Char) : List Char :=
  stripTagsGo l.length l

/-- scraper.py line 92: `re.sub(r"<.*?>", "", summary)[:1000]`. -/
def clean_summary_of (summary : String) : String :=
  String.mk ((stripTags summary.data).take 1000)

/-- One raw feed entry, holding exactly the fields `entry_to_item` reads
(`entry.get(...)`); a `none` models an absent key (or a `None` value, which
every use site coalesces away with `or`). -/
structure Entry where
  title : Option String := none
  summary : Option String := none
  description : Option String := none
  link : Option String := none
  published : Option String := none
  updated : Option String := none
  published_parsed : Option TimeStruct := none
  updated_parsed : Option TimeStruct := none
deriving DecidableEq

/-- The item record built by `entry_to_item` (scraper.py lines 97-107). -/
structure Item where
  title : String
  summary : String
  link : String
  source : String
  published : String
  matched : List String
  ai_summary : String
  ai_tags : List String
deriving DecidableEq

/-- scraper.py lines 78-108.  Note line 82's raw textual
`published`/`updated` value is bound but never stored in the item: the
`published` field comes only from the parsed time struct (or is empty). -/
def entry_to_item (entry : Entry) (source_url : String) (keywords : List String) : Item :=
  let title := pyOr (entry.title.getD "") ""
  let summary := pyOr (pyOr (entry.summary.getD "") (entry.description.getD "")) ""
  let link := pyOr (entry.link.getD "") ""
  let published_parsed := entry.published_parsed <|> entry.updated_parsed
  let iso := match published_parsed with
    | some t => isoformatUTC t
    | none => ""
  let clean_summary := clean_summary_of summary
  let haystack := title ++ "\n" ++ clean_summary
  let matched := matches_keywords haystack keywords
  { title := title, summary := clean_summary, link := link,
    source := source_url, published := iso, matched := matched,
    ai_summary := "", ai_tags := [] }

/-- scraper.py lines 132-136: four successive `str.replace` calls. -/
def xml_escape (s : String) : String :=
  pyReplace (pyReplace (pyReplace (pyReplace s "&" "&amp;") "<" "&lt;") ">" "&gt;") "\"" "&quot;"

/-- The fixed substring-to-label rules of `infer_ai_tags` (scraper.py lines
151-169), in their `add_if` call order. -/
def ruleTable : List (String × String) :=
  [("hydrogen", "Hydrogen"),
   ("fuel cell", "Fuel cells"),
   ("net zero", "Net zero"),
   ("decarbonis", "Decarbonisation"),
   ("industrial strategy", "Industrial strategy"),
   ("manufactur", "Manufacturing"),
   ("supply chain", "Supply chains"),
   ("semiconductor", "Semiconductors"),
   ("chips act", "CHIPS / semiconductors"),
   ("ira ", "US IRA"),
   ("r&d", "R&D"),
   ("research and development", "R&D"),
   ("innovation", "Innovation"),
   ("clean energy", "Clean energy"),
   ("heat pump", "Heat pumps"),
   ("nuclear", "Nuclear"),
   ("small modular reactor", "SMRs"),
   ("trade", "Trade"),
   ("export", "Trade")]

/-- `tags.add(label)`: the `set` is modelled as an insertion-ordered
duplicate-free list (the order is irrelevant once sorted). -/
def addIfSet (acc : List String) (x : String) : List String :=
  if x ∈ acc then acc else acc ++ [x]

/-- Stable insertion into a list sorted by `le` (`le y x` = `y` may stay in
front of `x`): `x` goes after every element it could follow, so elements
tied with `x` keep their earlier position. -/
def insrt (le : α → α → Bool) (x : α) : List α → List α
  | [] => [x]
  | y :: ys => if le y x then y :: insrt le x ys else x :: y :: ys

/-- A stable sort (insertion sort, processing the list left to right).
CPython's `list.sort`/`sorted` are stable sorts, so they are this function
for the corresponding boolean order: equal-key elements keep their original
relative order, which the theorems below establish. -/
def stableSort (le : α → α → Bool) (l : List α) : List α :=
  l.foldl (fun acc x => insrt le x acc) []

/-- scraper.py lines 139-171: collect the labels whose substring occurs in
the lowercased text into a set, then `sorted(tags)` (Python sorts strings
lexicographically by code point, which is `String`'s linear order). -/
def infer_ai_tags (text : String) : List String :=
  let t := pyLower text
  let tags := ruleTable.foldl
    (fun acc r => if listContains t.data r.1.data then addIfSet acc r.2 else acc) []
  stableSort pyLe tags

/-- scraper.py line 188. -/
def max_items : Nat := 50

/-- scraper.py lines 190-191: `f"{title}. {summary}".strip()` with newlines
then collapsed to spaces. -/
def genInputText (it : Item) : String :=
  pyReplace (pyStrip (it.title ++ ". " ++ it.summary)) "\n" " "

/-- scraper.py lines 192-208: the `ai_summary` an item receives when the
summariser is available.  `summarize` is the external service: it is given
the input truncated to 900 characters and yields `some raw` (then stripped)
or `none` (the call raised; the item keeps an empty summary).  The
`not text` test is subsumed by `len(text) < 40`. -/
def genSummary (summarize : String → Option String) (it : Item) : String :=
  let text := genInputText it
  if text.data.length < 40 then ""
  else match summarize (String.mk (text.data.take 900)) with
    | some raw => pyStrip raw
    | none => ""

/-- scraper.py lines 211-212 and 220-221: the heuristic-tag input is
`f"{title} {summary}"`. -/
def tagText (it : Item) : String := it.title ++ " " ++ it.summary

/-- The full first-loop body (scraper.py lines 189-216): summary treatment
plus heuristic tags. -/
def summaryTreat (summarize : String → Option String) (it : Item) : Item :=
  { it with ai_summary := genSummary summarize it,
            ai_tags := infer_ai_tags (tagText it) }

/-- The tags-only update (scraper.py lines 183-185 and 219-221). -/
def tagsOnly (it : Item) : Item :=
  { it with ai_tags := infer_ai_tags (tagText it) }

/-- scraper.py lines 174-221, as a transformation of the item list.  With no
summariser every item only gets heuristic tags.  With a summariser the
`for idx, item in enumerate(items)` loop breaks once `idx + 1 >= max_items`,
i.e. it treats exactly the first 50 items (all of them when there are
fewer), and the trailing `items[max_items:]` loop gives the remaining items
heuristic tags only. -/
def add_ai_fields (summarizer : Option (String → Option String)) (items : List Item) : List Item :=
  match summarizer with
  | none => items.map tagsOnly
  | some f => (items.take max_items).map (summaryTreat f)
      ++ (items.drop max_items).map tagsOnly

/-- What the scraper prints: the one-time INFO notice when transformers is
unavailable (line 181), the per-item summarisation warning (line 207), and
the per-URL feed warning (line 74). -/
inductive LogMsg where
  | infoNoTransformers
  | warnSummarise (idx : Nat)
  | warnFeed (url : String)
deriving DecidableEq

/-- The log `add_ai_fields` emits: a single INFO notice when the summariser
is unavailable, else one warning per failed summarisation among the treated
items (an item whose input is too short makes no service call and warns
nothing). -/
def add_ai_log (summarizer : Option (String → Option String)) (items : List Item) : List LogMsg :=
  match summarizer with
  | none => [LogMsg.infoNoTransformers]
  | some f => (items.take max_items).enum.filterMap (fun p =>
      let text := genInputText p.2
      if text.data.length < 40 then none
      else match f (String.mk (text.data.take 900)) with
        | some _ => none
        | none => some (LogMsg.warnSummarise p.1))

/-- scraper.py lines 70-75: `fetch_feed` returns the parse result, or an
object with no entries when parsing raised.  `parse` stands for
`feedparser.parse`, returning its entry list or an error. -/
def fetch_feed (parse : String → Except String (List Entry)) (url : String) : List Entry :=
  match parse url with
  | Except.ok entries => entries
  | Except.error _ => []

/-- The warning `fetch_feed` prints on a failure (line 74). -/
def fetch_log (parse : String → Except String (List Entry)) (url : String) : List LogMsg :=
  match parse url with
  | Except.ok _ => []
  | Except.error _ => [LogMsg.warnFeed url]

/-- scraper.py lines 233-240: each configured source URL is stripped, blank
ones are skipped, and every entry of every fetched feed becomes an item
(there is no filtering on `matched`). -/
def collectItems (parse : String → Except String (List Entry))
    (sources : List String) (keywords : List String) : List Item :=
  ((sources.map pyStrip).filter (fun u => u != "")).flatMap
    (fun url => (fetch_feed parse url).map (fun e => entry_to_item e url keywords))

/-- scraper.py line 264: `items.sort(key=lambda x: x.get("published") or "",
reverse=True)`.  The key `x.get("published") or ""` is just the `published`
field (it is always a string, and `"" or ""` is `""`).  CPython's sort is a
stable sort, and with `reverse=True` equal-key elements keep their original
order; that is exactly the stable sort for the order `key b ≤ key a`, whose
ties (`key a = key b`, `≤` being total on strings) keep their original
relative order. -/
def sortItems (items : List Item) : List Item :=
  stableSort (fun a b => pyLe b.published a.published) items

/-- scraper.py lines 230-267: the item list as it stands when the payload is
assembled (collect from RSS sources, sort, enrich; HTML scraping is off by
default and contributes nothing). -/
def pipelineItems (parse : String → Except String (List Entry))
    (summarizer : Option (String → Option String))
    (keywords sources : List String) : List Item :=
  add_ai_fields summarizer (sortItems (collectItems parse sources keywords))

/-- scraper.py lines 272-277. -/
structure Payload where
  generated_at : String
  keywords : List String
  count : Nat
  items : List Item
deriving DecidableEq

/-- The JSON payload: `generated_at`, the keyword list verbatim, the item
count and the items. -/
def payload (parse : String → Except String (List Entry))
    (summarizer : Option (String → Option String))
    (keywords sources : List String) (genAt : String) : Payload :=
  let items := pipelineItems parse summarizer keywords sources
  { generated_at := genAt, keywords := keywords,
    count := items.length, items := items }

/-- The four rendered fields of one `<item>` element (scraper.py lines
285-299). -/
structure RssItem where
  title : String
  link : String
  description : String
  pubDate : String
deriving DecidableEq

/-- One `<item>`: `title`/`link` XML-escaped, `description` is
`item.get("ai_summary") or item.get("summary") or ""` XML-escaped, and
`pubDate` is `item.get("published") or generated_at` XML-escaped. -/
def rss_item (genAt : String) (it : Item) : RssItem :=
  { title := xml_escape it.title,
    link := xml_escape it.link,
    description := xml_escape (pyOr (pyOr it.ai_summary it.summary) ""),
    pubDate := xml_escape (pyOr it.published genAt) }

/-- scraper.py lines 284-300: the RSS document's items are built from
`items[:50]`. -/
def rss_items (genAt : String) (items : List Item) : List RssItem :=
  (items.take 50).map (rss_item genAt)

/-- A single-line angle-bracket tag survives in `l`: some `<` is followed by
a `>` with no newline in between (the shapes the pattern `<.*?>` can match,
`.` not matching a newline).  Used to state that `stripTags` leaves no such
tag behind. -/
def hasTag : List Char → Bool
  | [] => false
  | c :: r => (decide (c = '<') && (findGt r).isSome) || hasTag r

/-- The spec's alternative formulation for the aggregator sort, read
literally: stable-sort ascending on `published or ""`, then reverse the
list. -/
def ascThenReverse (items : List Item) : List Item :=
  (stableSort (fun a b => pyLe a.published b.published) items).reverse

/-- An item as `entry_to_item` would build one, for concrete test vectors:
only `title` and `published` vary, the enrichment fields start empty. -/
def mkItem (t p : String) : Item :=
  { title := t, summary := "", link := "", source := "", published := p,
    matched := [], ai_summary := "", ai_tags := [] }

/-- The spec's sorting example: `published` values
`["2024-01-02T...", "", "2024-03-01T...", ""]`, with distinct titles so the
two undated items can be told apart. -/
def exC2 : List Item :=
  [mkItem "jan" "2024-01-02T00:00:00+00:00", mkItem "e1" "",
   mkItem "mar" "2024-03-01T00:00:00+00:00", mkItem "e2" ""]

/-- The spec's end-to-end scenario, matching entry: title
"UK hydrogen strategy announced". -/
def entryHydrogen : Entry :=
  { title := some "UK hydrogen strategy announced", summary := some "" }

/-- The spec's end-to-end scenario, non-matching entry: title
"Weather update". -/
def entryWeather : Entry :=
  { title := some "Weather update" }

/-- A feed parser for the end-to-end scenario: every URL yields the two
scenario entries. -/
def parseScenario : String → Except String (List Entry) :=
  fun _ => Except.ok [entryHydrogen, entryWeather]

/-- Everything of a UTC `isoformat` string before the `+00:00` offset:
date, `T`, time, and the `.ffffff` fraction when the microsecond field is
non-zero.  `isoformatUTC t` is `isoCoreMicro t 0 ++ "+00:00"` and
`isoformatUTCMicro t micro` is `isoCoreMicro t micro ++ "+00:00"`. -/
def isoCoreMicro (t : TimeStruct) (micro : Nat) : List Char :=
  pad 4 t.year ++ '-' :: pad 2 t.month ++ '-' :: pad 2 t.day ++ 'T' :: pad 2 t.hour
    ++ ':' :: pad 2 t.minute ++ ':' :: pad 2 t.second
    ++ (if micro = 0 then [] else '.' :: pad 6 micro)

/-! ## Helper lemmas: the lexicographic comparison -/

theorem strLeB_refl : ∀ l : List Char, strLeB l l = true
  | [] => rfl
  | _ :: as => by simp [strLeB, strLeB_refl as]

theorem strLeB_total : ∀ a b : List Char, (strLeB a b || strLeB b a) = true
  | [], _ => by simp [strLeB]
  | _ :: _, [] => by simp [strLeB]
  | a :: as, b :: bs => by
    by_cases h : a = b
    · simpa [strLeB, h] using strLeB_total as bs
    · have hv : a.toNat ≠ b.toNat := fun hc => h (Char.ext (by
        have hn : a.val.toNat = b.val.toNat := hc
        exact UInt32.toNat.inj hn))
      simp only [strLeB, h, Ne.symm h, if_false, Bool.or_eq_true, decide_eq_true_eq]
      omega

theorem strLeB_trans : ∀ a b c : List Char,
    strLeB a b = true → strLeB b c = true → strLeB a c = true
  | [], _, _, _, _ => rfl
  | _ :: _, [], _, h, _ => by simp [strLeB] at h
  | _ :: _, _ :: _, [], _, h => by simp [strLeB] at h
  | a :: as, b :: bs, c :: cs, h1, h2 => by
    by_cases hab : a = b <;> by_cases hbc : b = c
    · subst hab
      subst hbc
      simp only [strLeB, if_true, if_pos rfl] at h1 h2 ⊢
      exact strLeB_trans as bs cs h1 h2
    · subst hab
      simpa [strLeB, hbc] using h2
    · subst hbc
      simpa [strLeB, hab] using h1
    · simp only [strLeB, hab, hbc, if_false, decide_eq_true_eq] at h1 h2
      by_cases hac : a = c
      · subst hac
        omega
      · simp only [strLeB, hac, if_false, decide_eq_true_eq]
        omega

theorem strLeB_antisymm : ∀ a b : List Char,
    strLeB a b = true → strLeB b a = true → a = b
  | [], [], _, _ => rfl
  | [], _ :: _, _, h => by simp [strLeB] at h
  | _ :: _, [], h, _ => by simp [strLeB] at h
  | a :: as, b :: bs, h1, h2 => by
    by_cases hab : a = b
    · subst hab
      simp [strLeB] at h1 h2
      rw [strLeB_antisymm as bs h1 h2]
    · simp [strLeB, hab, Ne.symm hab] at h1 h2
      omega

theorem strLeB_nil_left (l : List Char) : strLeB [] l = true := rfl

theorem strLeB_nil_right : ∀ l : List Char, strLeB l [] = true → l = []
  | [], _ => rfl
  | _ :: _, h => by simp [strLeB] at h

theorem pyLe_refl (s : String) : pyLe s s = true := strLeB_refl s.data

theorem pyLe_of_eq {a b : String} (h : a = b) : pyLe a b = true := by
  subst h
  exact pyLe_refl a

theorem pyLe_antisymm {a b : String} (h1 : pyLe a b = true) (h2 : pyLe b a = true) :
    a = b := by
  cases a with
  | mk da =>
    cases b with
    | mk db =>
      have := strLeB_antisymm da db h1 h2
      simp [this]

theorem pyLe_empty {s : String} (h : pyLe s "" = true) : s = "" := by
  cases s with
  | mk ds =>
    have : ds = [] := strLeB_nil_right ds h
    simp [this]

/-! ## Helper lemmas: the stable insertion sort -/

theorem mem_insrt (le : α → α → Bool) (x : α) (z : α) :
    ∀ l : List α, z ∈ insrt le x l ↔ z = x ∨ z ∈ l := by
  intro l
  induction l with
  | nil => simp [insrt]
  | cons y ys ih =>
    by_cases h : le y x = true
    · simp [insrt, h, ih]
      tauto
    · simp [insrt, h]

theorem insrt_perm (le : α → α → Bool) (x : α) :
    ∀ l : List α, List.Perm (insrt le x l) (x :: l) := by
  intro l
  induction l with
  | nil => exact List.Perm.refl _
  | cons y ys ih =>
    by_cases h : le y x = true
    · simp only [insrt, h, if_true]
      exact (ih.cons y).trans (List.Perm.swap x y ys)
    · simp [insrt, h]

theorem stableSort_perm_aux (le : α → α → Bool) :
    ∀ (l acc : List α),
      List.Perm (List.foldl (fun acc x => insrt le x acc) acc l) (acc ++ l) := by
  intro l
  induction l with
  | nil => simp
  | cons x xs ih =>
    intro acc
    refine ((ih (insrt le x acc)).trans ?_)
    exact ((insrt_perm le x acc).append_right xs).trans List.perm_middle.symm

theorem stableSort_perm (le : α → α → Bool) (l : List α) :
    List.Perm (stableSort le l) l :=
  stableSort_perm_aux le l []

theorem insrt_pairwise (le : α → α → Bool)
    (htrans : ∀ a b c, le a b = true → le b c = true → le a c = true)
    (htotal : ∀ a b, (le a b || le b a) = true) (x : α) :
    ∀ l : List α, List.Pairwise (fun a b => le a b = true) l →
      List.Pairwise (fun a b => le a b = true) (insrt le x l) := by
  intro l
  induction l with
  | nil => simp [insrt]
  | cons y ys ih =>
    intro hp
    rw [List.pairwise_cons] at hp
    by_cases h : le y x = true
    · simp only [insrt, h, if_true]
      rw [List.pairwise_cons]
      constructor
      · intro z hz
        rcases (mem_insrt le x z ys).mp hz with hz | hz
        · subst hz
          exact h
        · exact hp.1 z hz
      · exact ih hp.2
    · simp only [insrt, h, if_false, Bool.false_eq_true]
      rw [List.pairwise_cons]
      have hxy : le x y = true := by
        have ht := htotal y x
        cases hyx : le y x with
        | true => exact absurd hyx h
        | false => simpa [hyx] using ht
      constructor
      · intro z hz
        rcases List.mem_cons.mp hz with rfl | hz
        · exact hxy
        · exact htrans x y z hxy (hp.1 z hz)
      · exact List.pairwise_cons.mpr hp

theorem stableSort_pairwise_aux (le : α → α → Bool)
    (htrans : ∀ a b c, le a b = true → le b c = true → le a c = true)
    (htotal : ∀ a b, (le a b || le b a) = true) :
    ∀ (l acc : List α), List.Pairwise (fun a b => le a b = true) acc →
      List.Pairwise (fun a b => le a b = true)
        (List.foldl (fun acc x => insrt le x acc) acc l) := by
  intro l
  induction l with
  | nil => exact fun acc h => h
  | cons x xs ih =>
    intro acc hacc
    exact ih (insrt le x acc) (insrt_pairwise le htrans htotal x acc hacc)

theorem stableSort_pairwise (le : α → α → Bool)
    (htrans : ∀ a b c, le a b = true → le b c = true → le a c = true)
    (htotal : ∀ a b, (le a b || le b a) = true) (l : List α) :
    List.Pairwise (fun a b => le a b = true) (stableSort le l) :=
  stableSort_pairwise_aux le htrans htotal l [] (List.Pairwise.nil)

theorem insrt_filter (le : α → α → Bool) (p : α → Bool)
    (htrans : ∀ a b c, le a b = true → le b c = true → le a c = true)
    (htie : ∀ a b, p a = true → p b = true → le a b = true) (x : α) :
    ∀ l : List α, List.Pairwise (fun a b => le a b = true) l →
      (insrt le x l).filter p =
        (if p x then l.filter p ++ [x] else l.filter p) := by
  intro l
  induction l with
  | nil => by_cases hx : p x <;> simp [insrt, hx]
  | cons y ys ih =>
    intro hp
    rw [List.pairwise_cons] at hp
    by_cases h : le y x = true
    · have ihy := ih hp.2
      by_cases hy : p y <;> by_cases hx : p x <;>
        simp [insrt, h, List.filter_cons, hy, hx, ihy]
    · by_cases hx : p x
      · have hnone : List.filter p (y :: ys) = [] := by
          rw [List.filter_eq_nil_iff]
          intro z hz
          intro hpz
          have hzx : le z x = true := htie z x hpz hx
          rcases List.mem_cons.mp hz with rfl | hz
          · exact h hzx
          · have hyz := hp.1 z hz
            exact h (htrans y z x hyz hzx)
        simp [insrt, h, List.filter_cons, hx, hnone]
      · simp [insrt, h, List.filter_cons, hx]

theorem stableSort_filter_aux (le : α → α → Bool) (p : α → Bool)
    (htrans : ∀ a b c, le a b = true → le b c = true → le a c = true)
    (htotal : ∀ a b, (le a b || le b a) = true)
    (htie : ∀ a b, p a = true → p b = true → le a b = true) :
    ∀ (l acc : List α), List.Pairwise (fun a b => le a b = true) acc →
      (List.foldl (fun acc x => insrt le x acc) acc l).filter p =
        acc.filter p ++ l.filter p := by
  intro l
  induction l with
  | nil => simp
  | cons x xs ih =>
    intro acc hacc
    rw [List.foldl_cons, ih (insrt le x acc) (insrt_pairwise le htrans htotal x acc hacc),
      insrt_filter le p htrans htie x acc hacc, List.filter_cons]
    by_cases hx : p x <;> simp [hx]

/-- Stability of `stableSort`: the subsequence of elements in one tie class
(any `p` whose members are mutually `le`-related) is exactly what it was in
the input. -/
theorem stableSort_filter (le : α → α → Bool) (p : α → Bool)
    (htrans : ∀ a b c, le a b = true → le b c = true → le a c = true)
    (htotal : ∀ a b, (le a b || le b a) = true)
    (htie : ∀ a b, p a = true → p b = true → le a b = true) (l : List α) :
    (stableSort le l).filter p = l.filter p :=
  stableSort_filter_aux le p htrans htotal htie l [] (List.Pairwise.nil)

/-! ## Helper lemmas: tag stripping -/

theorem findGt_length : ∀ {l r : List Char}, findGt l = some r → r.length < l.length := by
  intro l
  induction l with
  | nil => intro r h; simp [findGt] at h
  | cons c t ih =>
    intro r h
    by_cases hc : c = '>'
    · simp [findGt, hc] at h
      simp [← h, List.length_cons]
    · by_cases hn : c = '\n'
      · simp [findGt, hc, hn] at h
      · simp only [findGt, hc, hn, if_false] at h
        have := ih h
        simp only [List.length_cons]
        omega

theorem stripTagsGo_congr : ∀ (fuel fuel' : Nat) (l : List Char),
    l.length ≤ fuel → l.length ≤ fuel' → stripTagsGo fuel l = stripTagsGo fuel' l := by
  intro fuel
  induction fuel with
  | zero =>
    intro fuel' l h _
    have hl : l = [] := List.eq_nil_of_length_eq_zero (Nat.le_zero.mp h)
    subst hl
    cases fuel' <;> rfl
  | succ fuel ih =>
    intro fuel' l h h'
    match l with
    | [] => cases fuel' <;> rfl
    | c :: rest =>
      match fuel' with
      | 0 => simp at h'
      | fuel' + 1 =>
        simp only [stripTagsGo]
        by_cases hc : c = '<'
        · simp only [hc, if_true]
          cases hg : findGt rest with
          | some rest' =>
            have hlen := findGt_length hg
            have hr : rest.length ≤ fuel := by
              simp only [List.length_cons] at h
              omega
            have hr' : rest.length ≤ fuel' := by
              simp only [List.length_cons] at h'
              omega
            exact ih fuel' rest' (by omega) (by omega)
          | none =>
            have hr : rest.length ≤ fuel := by
              simp only [List.length_cons] at h
              omega
            have hr' : rest.length ≤ fuel' := by
              simp only [List.length_cons] at h'
              omega
            rw [ih fuel' rest hr hr']
        · simp only [hc, if_false]
          have hr : rest.length ≤ fuel := by
            simp only [List.length_cons] at h
            omega
          have hr' : rest.length ≤ fuel' := by
            simp only [List.length_cons] at h'
            omega
          rw [ih fuel' rest hr hr']

theorem stripTags_nil : stripTags [] = [] := rfl

theorem stripTags_cons (c : Char) (rest : List Char) :
    stripTags (c :: rest) =
      if c = '<' then
        (match findGt rest with
          | some rest' => stripTags rest'
          | none => c :: stripTags rest)
      else c :: stripTags rest := by
  show stripTagsGo (rest.length + 1) (c :: rest) = _
  simp only [stripTagsGo]
  by_cases hc : c = '<'
  · simp only [hc, if_true]
    cases hg : findGt rest with
    | some rest' =>
      have := findGt_length hg
      exact stripTagsGo_congr rest.length rest'.length rest' (by omega) (by omega)
    | none => rfl
  · simp only [hc, if_false]
    rfl

/-- `findGt` ignores everything but `>` and newlines, so if no match starts
at the head of `l`, none starts at the head of `stripTags l` either: the
removals never delete a newline (a match lies within one line), so the
first line of the output has no `>` if the first line of the input had
none. -/
theorem findGt_stripTags_none : ∀ l : List Char,
    findGt l = none → findGt (stripTags l) = none := by
  suffices hgen : ∀ (n : Nat) (l : List Char), l.length = n →
      findGt l = none → findGt (stripTags l) = none by
    intro l
    exact hgen l.length l rfl
  intro n
  induction n using Nat.strong_induction_on with
  | _ n ih =>
    intro l hn
    match l with
    | [] => intro _; rfl
    | c :: rest =>
      intro h
      by_cases hgt : c = '>'
      · simp [findGt, hgt] at h
      · by_cases hnl : c = '\n'
        · rw [stripTags_cons]
          have hc : ¬ c = '<' := by
            rw [hnl]
            decide
          simp only [hc, if_false]
          simp [findGt, hgt, hnl]
        · have hrest : findGt rest = none := by
            simpa [findGt, hgt, hnl] using h
          rw [stripTags_cons]
          by_cases hc : c = '<'
          · simp only [hc, if_true, hrest]
            have hx : findGt (stripTags rest) = none :=
              ih rest.length (by rw [← hn]; simp) rest rfl hrest
            cases hs : stripTags rest with
            | nil => rfl
            | cons d ds =>
              rw [hs] at hx
              simpa [findGt, hgt, hnl, hc] using hx
          · simp only [hc, if_false]
            have hx : findGt (stripTags rest) = none :=
              ih rest.length (by rw [← hn]; simp) rest rfl hrest
            simpa [findGt, hgt, hnl] using hx

/-- After stripping, no single-line angle-bracket tag remains. -/
theorem hasTag_stripTags : ∀ l : List Char, hasTag (stripTags l) = false := by
  suffices hgen : ∀ (n : Nat) (l : List Char), l.length = n →
      hasTag (stripTags l) = false by
    intro l
    exact hgen l.length l rfl
  intro n
  induction n using Nat.strong_induction_on with
  | _ n ih =>
    intro l hn
    match l with
    | [] => rfl
    | c :: rest =>
      rw [stripTags_cons]
      by_cases hc : c = '<'
      · simp only [hc, if_true]
        cases hg : findGt rest with
        | some rest' =>
          have := findGt_length hg
          refine ih rest'.length ?_ rest' rfl
          rw [← hn]
          simp only [List.length_cons]
          omega
        | none =>
          have h1 : hasTag (stripTags rest) = false :=
            ih rest.length (by rw [← hn]; simp) rest rfl
          have h2 : findGt (stripTags rest) = none := findGt_stripTags_none rest hg
          simp [hasTag, h1, h2]
      · simp only [hc, if_false]
        have h1 : hasTag (stripTags rest) = false :=
          ih rest.length (by rw [← hn]; simp) rest rfl
        simp [hasTag, h1, hc]

theorem hasTag_cons_of (c : Char) {r : List Char} (h : hasTag r = true) :
    hasTag (c :: r) = true := by
  simp [hasTag, h]

theorem findGt_isSome_of_gt : ∀ (mid t : List Char), '\n' ∉ mid →
    (findGt (mid ++ '>' :: t)).isSome = true := by
  intro mid
  induction mid with
  | nil => intro t _; simp [findGt]
  | cons c ms ih =>
    intro t hm
    by_cases hc : c = '>'
    · simp [findGt, hc]
    · have hn : ¬ c = '\n' := fun hh => hm (hh ▸ List.mem_cons_self c ms)
      simp only [List.cons_append, findGt, hc, hn, if_false]
      exact ih t (fun hh => hm (List.mem_cons_of_mem c hh))

/-- A single-line tag occurring anywhere in `l` makes `hasTag l` true. -/
theorem hasTag_of_infix : ∀ (l mid : List Char), '\n' ∉ mid →
    ('<' :: mid ++ ['>']) <:+: l → hasTag l = true := by
  intro l
  induction l with
  | nil =>
    intro mid _ hinf
    rcases hinf with ⟨s, t, hst⟩
    simp at hst
  | cons c rest ih =>
    intro mid hm hinf
    rcases hinf with ⟨s, t, hst⟩
    match s with
    | [] =>
      rw [List.nil_append, List.cons_append, List.cons_append] at hst
      injection hst with hc hrest
      rw [hasTag, ← hc]
      have hr2 : rest = mid ++ '>' :: t := by
        rw [← hrest]
        simp
      rw [hr2]
      simp [findGt_isSome_of_gt mid t hm]
    | d :: s' =>
      have hrest : '<' :: mid ++ ['>'] <:+: rest := by
        refine ⟨s', t, ?_⟩
        rw [List.cons_append, List.cons_append] at hst
        injection hst with h1 h2
      exact hasTag_cons_of c (ih mid hm hrest)

/-! ## Helper lemmas: the keyword matcher -/

/-- The loop body in closed form: a keyword is returned (as its trimmed
form) exactly when the trimmed form is non-empty and its quote-stripped,
lowercased form occurs in the text. -/
theorem kwMatch_eq (t kw : String) :
    kwMatch t kw =
      if pyStrip kw = "" then none
      else if listContains t.data (pyLower (quoteStrip (pyStrip kw))).data then
        some (pyStrip kw)
      else none := by
  by_cases hc : pyStrip kw = ""
  · simp [kwMatch, hc]
  · by_cases hq : (prefixB ['\"'] (pyStrip kw).data && suffixB ['\"'] (pyStrip kw).data) = true
    · simp [kwMatch, quoteStrip, hc, hq]
    · simp [kwMatch, quoteStrip, hc, hq]

theorem matches_eq_spec (text : String) : ∀ keywords : List String,
    matches_keywords text keywords = specC1_matches text keywords := by
  intro keywords
  induction keywords with
  | nil => rfl
  | cons kw kws ih =>
    simp only [matches_keywords, specC1_matches] at ih ⊢
    rw [List.filterMap_cons, List.map_cons, List.filter_cons, kwMatch_eq]
    by_cases hc : pyStrip kw = ""
    · simp [hc, ih]
    · by_cases hm :
        listContains (norm text).data (pyLower (quoteStrip (pyStrip kw))).data = true
      · simp [hc, hm, ih]
      · simp [hc, hm, ih]

/-- A non-empty trimmed string contains a non-whitespace character. -/
theorem pyStrip_has_nonws (kw : String) (h : pyStrip kw ≠ "") :
    ∃ c ∈ (pyStrip kw).data, c.isWhitespace = false := by
  have hr : ((kw.data.dropWhile Char.isWhitespace).reverse.dropWhile
      Char.isWhitespace) ≠ [] := by
    intro hnil
    apply h
    show String.mk _ = ""
    rw [hnil]
    rfl
  refine ⟨((kw.data.dropWhile Char.isWhitespace).reverse.dropWhile
      Char.isWhitespace).head hr, ?_, ?_⟩
  · show _ ∈ ((kw.data.dropWhile Char.isWhitespace).reverse.dropWhile
      Char.isWhitespace).reverse
    exact List.mem_reverse.mpr (List.head_mem hr)
  · exact List.head_dropWhile_not Char.isWhitespace _ hr

theorem mem_matches_keywords {text : String} {keywords : List String} {k : String}
    (h : k ∈ matches_keywords text keywords) :
    ∃ kw ∈ keywords, k = pyStrip kw ∧ pyStrip kw ≠ "" := by
  rw [matches_keywords, List.mem_filterMap] at h
  rcases h with ⟨kw, hkw, hsome⟩
  rw [kwMatch_eq] at hsome
  by_cases hc : pyStrip kw = ""
  · simp [hc] at hsome
  · refine ⟨kw, hkw, ?_, hc⟩
    by_cases hm :
      listContains (norm text).data (pyLower (quoteStrip (pyStrip kw))).data = true
    · simp [hc, hm] at hsome
      exact hsome.symm
    · simp [hc, hm] at hsome

/-! ## Claim C1 -/

/-- C1, counterexample.  The claim says `matches_keywords` returns exactly
the configured keywords whose phrase-stripped, lowercased form is a literal
substring of the lowercased text.  For text `"cart"` and keyword list
`["art "]` (note the trailing blank) the phrase-stripped, lowercased form
of the sole keyword is `"art "`, which is not a substring of `"cart"` —
the claim-literal reading returns nothing — yet the code returns `["art"]`,
a string that is not even an entry of the configured list: the code first
trims each keyword and both matches and returns the trimmed form. -/
theorem C1_counterexample :
    matches_keywords "cart" ["art "] = ["art"] ∧
    claimC1_matches "cart" ["art "] = [] ∧
    ("art" : String) ∉ (["art "] : List String) := by
  refine ⟨by decide, by decide, by decide⟩

/-- C1, as amended: for every text and keyword list, `matches_keywords`
returns exactly the whitespace-trimmed keywords (in configured list order)
whose trimmed, phrase-stripped, lowercased form is a literal substring of
the lowercased text; empty or whitespace-only keyword entries are never
returned (every returned entry is non-empty and contains a non-whitespace
character); and the function is deterministic: the same text and keyword
list always yield the same ordered result. -/
theorem C1_matches_keywords_spec (text : String) (keywords : List String) :
    matches_keywords text keywords = specC1_matches text keywords ∧
    (∀ k ∈ matches_keywords text keywords,
      k ≠ "" ∧ ∃ c ∈ k.data, c.isWhitespace = false) ∧
    (∀ text' keywords', text' = text → keywords' = keywords →
      matches_keywords text' keywords' = matches_keywords text keywords) := by
  refine ⟨matches_eq_spec text keywords, ?_, ?_⟩
  · intro k hk
    rcases mem_matches_keywords hk with ⟨kw, _, hkeq, hne⟩
    subst hkeq
    exact ⟨hne, pyStrip_has_nonws kw hne⟩
  · intro text' keywords' ht hk
    rw [ht, hk]

/-- C1, witness: the amended theorem applied at text
`"uk net zero and hydrogen news"` and keywords
`["hydrogen", "  ", "\"net zero\""]` (one plain keyword, one
whitespace-only entry, one quoted phrase). -/
theorem C1_witness :
    matches_keywords "uk net zero and hydrogen news" ["hydrogen", "  ", "\"net zero\""] =
      specC1_matches "uk net zero and hydrogen news" ["hydrogen", "  ", "\"net zero\""] ∧
    ("hydrogen" ≠ "" ∧ ∃ c ∈ "hydrogen".data, c.isWhitespace = false) :=
  ⟨(C1_matches_keywords_spec "uk net zero and hydrogen news"
      ["hydrogen", "  ", "\"net zero\""]).1,
   (C1_matches_keywords_spec "uk net zero and hydrogen news"
      ["hydrogen", "  ", "\"net zero\""]).2.1 "hydrogen" (by decide)⟩

/-! ## Claim C2 -/

theorem itemLe_trans (a b c : Item) :
    pyLe b.published a.published = true → pyLe c.published b.published = true →
      pyLe c.published a.published = true :=
  fun h1 h2 => strLeB_trans c.published.data b.published.data a.published.data h2 h1

theorem itemLe_total (a b : Item) :
    (pyLe b.published a.published || pyLe a.published b.published) = true :=
  strLeB_total b.published.data a.published.data

/-- C2, counterexample.  The claim asserts both that equal-`published` items
keep their original relative order and that the sort equals 'sort ascending
on `published or ""` then reverse'.  On the spec's own four-item example the
two disagree: the stable descending sort keeps the two empty-dated items in
original order (`e1` before `e2`), while ascending-then-reverse flips them. -/
theorem C2_counterexample :
    sortItems exC2 =
      [mkItem "mar" "2024-03-01T00:00:00+00:00", mkItem "jan" "2024-01-02T00:00:00+00:00",
       mkItem "e1" "", mkItem "e2" ""] ∧
    ascThenReverse exC2 =
      [mkItem "mar" "2024-03-01T00:00:00+00:00", mkItem "jan" "2024-01-02T00:00:00+00:00",
       mkItem "e2" "", mkItem "e1" ""] ∧
    sortItems exC2 ≠ ascThenReverse exC2 := by
  refine ⟨by decide, by decide, by decide⟩

/-- C2, as amended: the aggregator's sort is stable and total — the output
is a permutation of the input ordered by `published` descending under
lexicographic string comparison, items with empty `published` come after
all non-empty ones, and items with equal `published` (including the
empty-dated ones) keep their original relative order, as on the spec's
four-item example.  The spec's 'sort ascending then reverse' formulation is
NOT equivalent in general: it reverses the relative order of equal-key
items (see the counterexample). -/
theorem C2_sort_spec (items : List Item) :
    List.Pairwise (fun a b => pyLe b.published a.published = true) (sortItems items) ∧
    List.Pairwise (fun a b => a.published = "" → b.published = "") (sortItems items) ∧
    List.Perm (sortItems items) items ∧
    (∀ pub : String,
      (sortItems items).filter (fun x => x.published == pub) =
        items.filter (fun x => x.published == pub)) ∧
    sortItems exC2 =
      [mkItem "mar" "2024-03-01T00:00:00+00:00", mkItem "jan" "2024-01-02T00:00:00+00:00",
       mkItem "e1" "", mkItem "e2" ""] := by
  have hpair : List.Pairwise (fun a b => pyLe b.published a.published = true)
      (sortItems items) :=
    stableSort_pairwise _ itemLe_trans itemLe_total items
  refine ⟨hpair, ?_, stableSort_perm _ items, ?_, by decide⟩
  · refine hpair.imp ?_
    intro a b hle ha
    rw [ha] at hle
    exact pyLe_empty hle
  · intro pub
    refine stableSort_filter _ _ itemLe_trans itemLe_total ?_ items
    intro a b hpa hpb
    have ha : a.published = pub := by simpa using hpa
    have hb : b.published = pub := by simpa using hpb
    rw [hb, ha]
    exact pyLe_refl pub

/-- C2, witness: the amended theorem applied at the spec's four-item
example; the stability conjunct instantiated at the empty key shows the two
undated items keep their original order. -/
theorem C2_witness :
    (sortItems exC2).filter (fun x => x.published == "") =
      exC2.filter (fun x => x.published == "") :=
  (C2_sort_spec exC2).2.2.2.1 ""

/-! ## Claim C3 -/

/-- C3, counterexample.  The claim says the stripped summary never contains
HTML markup, for any input.  Python's `.` does not match a newline, so
`re.sub(r"<.*?>", "", s)` leaves a tag whose body spans a newline — legal
in HTML — untouched: input `"<a\nb>"` comes through unchanged and the
resulting summary still contains the full angle-bracket tag. -/
theorem C3_counterexample :
    clean_summary_of "<a\nb>" = "<a\nb>" ∧
    ('<' :: ['a', '\n', 'b'] ++ ['>']) <:+: (clean_summary_of "<a\nb>").data := by
  refine ⟨by decide, [], [], by decide⟩

/-- C3, as amended: for every raw feed entry summary, the Item's `summary`
field contains no single-line angle-bracket tag (no substring
`<`…`>` without a newline between the brackets — the shapes the stripping
pattern `<.*?>` can match; a tag spanning a newline may survive), its
length is at most 1000 characters, and the example
`"<p>Hello <b>World</b></p>"` yields `"Hello World"`. -/
theorem C3_clean_summary_spec (s : String) :
    (∀ mid : List Char, '\n' ∉ mid →
      ¬ ('<' :: mid ++ ['>']) <:+: (clean_summary_of s).data) ∧
    (clean_summary_of s).length ≤ 1000 ∧
    clean_summary_of "<p>Hello <b>World</b></p>" = "Hello World" := by
  refine ⟨?_, ?_, by decide⟩
  · intro mid hm hinf
    have hinf2 : ('<' :: mid ++ ['>']) <:+: stripTags s.data := by
      have hpre : (stripTags s.data).take 1000 <+: stripTags s.data :=
        List.take_prefix 1000 (stripTags s.data)
      exact hinf.trans hpre.isInfix
    have := hasTag_of_infix (stripTags s.data) mid hm hinf2
    rw [hasTag_stripTags s.data] at this
    cases this
  · show ((stripTags s.data).take 1000).length ≤ 1000
    simp [List.length_take]

/-- C3, witness: the amended theorem applied at `"<p>1 < 2</p>"` with the
empty tag body. -/
theorem C3_witness :
    ¬ ('<' :: [] ++ ['>']) <:+: (clean_summary_of "<p>1 < 2</p>").data :=
  (C3_clean_summary_spec "<p>1 < 2</p>").1 [] (by decide)

/-! ## Claim C4 -/

/-- C4: for every raw feed entry, the Item's `published` field is derived
only from the parsed time struct (`published_parsed` falling back to
`updated_parsed`) converted to UTC and serialized as ISO-8601; when no
parsed time is available, `published` is the empty string; and the entry's
raw textual `published`/`updated` field is never used as the final value
(changing those raw fields never changes the result). -/
theorem C4_published_spec (e : Entry) (srcUrl : String) (kws : List String) :
    ((entry_to_item e srcUrl kws).published =
      match e.published_parsed <|> e.updated_parsed with
      | some t => isoformatUTC t
      | none => "") ∧
    (∀ pt ut : Option String,
      (entry_to_item { e with published := pt, updated := ut } srcUrl kws).published =
        (entry_to_item e srcUrl kws).published) ∧
    (e.published_parsed = none → e.updated_parsed = none →
      (entry_to_item e srcUrl kws).published = "") ∧
    (∀ t, e.published_parsed = some t →
      (entry_to_item e srcUrl kws).published = isoformatUTC t) ∧
    (∀ t, e.published_parsed = none → e.updated_parsed = some t →
      (entry_to_item e srcUrl kws).published = isoformatUTC t) := by
  refine ⟨rfl, fun pt ut => rfl, ?_, ?_, ?_⟩
  · intro hp hu
    simp [entry_to_item, hp, hu]
  · intro t hp
    simp [entry_to_item, hp]
  · intro t hp hu
    simp [entry_to_item, hp, hu]

/-- C4, witness: an entry carrying both a raw textual date and a parsed
struct serializes the parsed struct. -/
theorem C4_witness :
    (entry_to_item
      { published := some "Fri, 01 Mar 2024 07:05:09 GMT",
        published_parsed := some ⟨2024, 3, 1, 7, 5, 9⟩ } "u" []).published =
      isoformatUTC ⟨2024, 3, 1, 7, 5, 9⟩ :=
  (C4_published_spec
    { published := some "Fri, 01 Mar 2024 07:05:09 GMT",
      published_parsed := some ⟨2024, 3, 1, 7, 5, 9⟩ } "u" []).2.2.2.1
    ⟨2024, 3, 1, 7, 5, 9⟩ rfl

/-! ## Claim C5 -/

theorem strle_trans (a b c : String) :
    pyLe a b = true → pyLe b c = true → pyLe a c = true :=
  fun h1 h2 => strLeB_trans a.data b.data c.data h1 h2

theorem strle_total (a b : String) : (pyLe a b || pyLe b a) = true :=
  strLeB_total a.data b.data

theorem addIfSet_nodup (acc : List String) (x : String) (h : acc.Nodup) :
    (addIfSet acc x).Nodup := by
  rw [addIfSet]
  by_cases hx : x ∈ acc
  · simpa [hx] using h
  · simp only [hx, if_false]
    refine List.Nodup.append h (List.nodup_singleton x) ?_
    intro a ha hax
    rcases List.mem_singleton.mp hax with rfl
    exact hx ha

theorem tagsFold_nodup (t : String) : ∀ (rules : List (String × String)) (acc : List String),
    acc.Nodup →
    (rules.foldl
      (fun acc r => if listContains t.data r.1.data then addIfSet acc r.2 else acc)
      acc).Nodup := by
  intro rules
  induction rules with
  | nil => exact fun acc h => h
  | cons r rs ih =>
    intro acc hacc
    rw [List.foldl_cons]
    by_cases hr : listContains t.data r.1.data = true
    · simp only [hr, if_true]
      exact ih _ (addIfSet_nodup acc r.2 hacc)
    · simp only [hr, if_false]
      exact ih _ hacc

/-- The heuristic tag list is strictly ascending: sorted and without
duplicates, as `sorted(set(...))`. -/
theorem infer_ai_tags_sorted_nodup (text : String) :
    List.Pairwise (fun a b => pyLe a b = true ∧ a ≠ b) (infer_ai_tags text) := by
  rw [infer_ai_tags]
  have hpair := stableSort_pairwise pyLe strle_trans strle_total
    (ruleTable.foldl
      (fun acc r => if listContains (pyLower text).data r.1.data then addIfSet acc r.2 else acc)
      [])
  have hnodup : (stableSort pyLe
      (ruleTable.foldl
        (fun acc r =>
          if listContains (pyLower text).data r.1.data then addIfSet acc r.2 else acc)
        [])).Nodup := by
    refine ((stableSort_perm pyLe _).nodup_iff).mpr ?_
    exact tagsFold_nodup (pyLower text) ruleTable [] List.nodup_nil
  exact hpair.and hnodup

theorem add_ai_fields_some_getElem (f : String → Option String) (items : List Item)
    (i : Nat) :
    (add_ai_fields (some f) items)[i]? =
      if i < max_items then (items[i]?).map (summaryTreat f)
      else (items[i]?).map tagsOnly := by
  rw [add_ai_fields]
  by_cases hi : i < max_items
  · simp only [hi, if_true]
    by_cases hn : i < items.length
    · have hlt : i < ((items.take max_items).map (summaryTreat f)).length := by
        simp [List.length_map, List.length_take]
        omega
      rw [List.getElem?_append_left hlt, List.getElem?_map,
        List.getElem?_take_of_lt hi]
    · have hge : items.length ≤ i := Nat.le_of_not_lt hn
      have h1 : (((items.take max_items).map (summaryTreat f)) ++
          ((items.drop max_items).map tagsOnly)).length ≤ i := by
        simp [List.length_append, List.length_map, List.length_take, List.length_drop]
        omega
      rw [List.getElem?_eq_none h1, List.getElem?_eq_none hge]
      rfl
  · have hge : max_items ≤ i := Nat.le_of_not_lt hi
    simp only [hi, if_false]
    have hfst : ((items.take max_items).map (summaryTreat f)).length ≤ i := by
      simp [List.length_map, List.length_take]
      omega
    rw [List.getElem?_append_right hfst, List.getElem?_map]
    simp only [List.length_map, List.length_take]
    by_cases hn : max_items ≤ items.length
    · have hmin : min max_items items.length = max_items := Nat.min_eq_left hn
      rw [hmin, List.getElem?_drop]
      have : max_items + (i - max_items) = i := by omega
      rw [this]
    · have hlen : items.length < max_items := Nat.lt_of_not_le hn
      have hmin : min max_items items.length = items.length :=
        Nat.min_eq_right (Nat.le_of_lt hlen)
      rw [hmin, List.getElem?_drop]
      rw [List.getElem?_eq_none
          (by omega : items.length ≤ max_items + (i - items.length)),
        List.getElem?_eq_none (by omega : items.length ≤ i)]

/-- C5: with the summarisation service available, only the first
`max_items = 50` items receive the generated-summary treatment — an item at
index ≥ 50 keeps its `ai_summary` untouched — yet every item, capped or
not, gets `ai_tags` computed from its `title ++ " " ++ summary` by the rule
table, and the tag list is sorted and duplicate-free. -/
theorem C5_enrichment_spec (f : String → Option String) (items : List Item) :
    (add_ai_fields (some f) items).length = items.length ∧
    (∀ i : Nat, i < max_items →
      (add_ai_fields (some f) items)[i]? = (items[i]?).map (summaryTreat f)) ∧
    (∀ i : Nat, max_items ≤ i →
      ((add_ai_fields (some f) items)[i]?).map Item.ai_summary =
        (items[i]?).map Item.ai_summary) ∧
    (∀ i : Nat, ((add_ai_fields (some f) items)[i]?).map Item.ai_tags =
      (items[i]?).map (fun it : Item => infer_ai_tags (it.title ++ " " ++ it.summary))) ∧
    (∀ text, List.Pairwise (fun a b => pyLe a b = true ∧ a ≠ b) (infer_ai_tags text)) := by
  refine ⟨?_, ?_, ?_, ?_, infer_ai_tags_sorted_nodup⟩
  · rw [add_ai_fields]
    simp [List.length_append, List.length_map, List.length_take, List.length_drop]
    omega
  · intro i hi
    rw [add_ai_fields_some_getElem]
    simp [hi]
  · intro i hi
    rw [add_ai_fields_some_getElem]
    have : ¬ i < max_items := Nat.not_lt.mpr hi
    simp only [this, if_false]
    cases items[i]? with
    | none => rfl
    | some it => rfl
  · intro i
    rw [add_ai_fields_some_getElem]
    by_cases hi : i < max_items
    · simp only [hi, if_true]
      cases items[i]? with
      | none => rfl
      | some it => rfl
    · simp only [hi, if_false]
      cases items[i]? with
      | none => rfl
      | some it => rfl

/-- C5, witness: the theorem applied to a one-item list and an echoing
summarisation service, at index 0 (below the cap). -/
theorem C5_witness :
    (add_ai_fields (some fun s => some s) [mkItem "t" ""])[0]? =
      (([mkItem "t" ""] : List Item)[0]?).map (summaryTreat (fun s => some s)) :=
  (C5_enrichment_spec (fun s => some s) [mkItem "t" ""]).2.1 0 (by decide)

/-! ## Claim C6 -/

theorem add_ai_fields_length (s : Option (String → Option String)) (items : List Item) :
    (add_ai_fields s items).length = items.length := by
  cases s with
  | none => simp [add_ai_fields]
  | some f =>
    simp only [add_ai_fields, List.length_append, List.length_map, List.length_take,
      List.length_drop]
    omega

theorem sortItems_length (items : List Item) :
    (sortItems items).length = items.length :=
  (stableSort_perm _ items).length_eq

theorem collectItems_length (parse : String → Except String (List Entry))
    (sources keywords : List String) :
    (collectItems parse sources keywords).length =
      (((sources.map pyStrip).filter (fun u => u != "")).map
        (fun u => (fetch_feed parse u).length)).sum := by
  rw [collectItems, List.flatMap]
  rw [List.length_flatten, List.map_map]
  refine congrArg List.sum (List.map_congr_left ?_)
  intro u hu
  simp [Function.comp, List.length_map]

/-- C6: `matched` is informational, never a filter.  The number of items is
the total number of fetched entries over the non-blank sources, whatever
the keyword list; the payload's `count` is the item count; and on the
two-entry scenario (one matching entry, one not) the payload has
`count = 2`, the first item's `matched` is `["hydrogen"]` and the second's
is empty. -/
theorem C6_matched_informational (parse : String → Except String (List Entry))
    (summarizer : Option (String → Option String))
    (sources keywords : List String) (genAt : String) :
    ((collectItems parse sources keywords).length =
      (((sources.map pyStrip).filter (fun u => u != "")).map
        (fun u => (fetch_feed parse u).length)).sum) ∧
    (payload parse summarizer keywords sources genAt).count =
      (payload parse summarizer keywords sources genAt).items.length ∧
    (payload parse summarizer keywords sources genAt).count =
      (((sources.map pyStrip).filter (fun u => u != "")).map
        (fun u => (fetch_feed parse u).length)).sum ∧
    (payload parseScenario none ["hydrogen", "\"net zero\""]
      ["https://example.org/feed"] "g").count = 2 ∧
    ((payload parseScenario none ["hydrogen", "\"net zero\""]
      ["https://example.org/feed"] "g").items.map Item.matched) = [["hydrogen"], []] := by
  refine ⟨collectItems_length parse sources keywords, rfl, ?_, by decide, by decide⟩
  show (pipelineItems parse summarizer keywords sources).length = _
  rw [pipelineItems, add_ai_fields_length, sortItems_length]
  exact collectItems_length parse sources keywords

/-- C6, witness: the theorem applied at the scenario inputs; its first
conjunct instantiated there says the two fetched entries give two items. -/
theorem C6_witness :
    (collectItems parseScenario ["https://example.org/feed"]
      ["hydrogen", "\"net zero\""]).length =
      ((((["https://example.org/feed"] : List String).map pyStrip).filter
        (fun u => u != "")).map
        (fun u => (fetch_feed parseScenario u).length)).sum :=
  (C6_matched_informational parseScenario none ["https://example.org/feed"]
    ["hydrogen", "\"net zero\""] "g").1

/-! ## Claim C7 -/

theorem mem_collectItems {parse : String → Except String (List Entry)}
    {sources keywords : List String} {it : Item}
    (h : it ∈ collectItems parse sources keywords) :
    ∃ e url, it = entry_to_item e url keywords := by
  rw [collectItems, List.mem_flatMap] at h
  rcases h with ⟨url, _, hmem⟩
  rcases List.mem_map.mp hmem with ⟨e, _, he⟩
  exact ⟨e, url, he.symm⟩

/-- C7: with the summarisation service unavailable the run still completes:
every item of the final list has an empty `ai_summary`, every item's
`ai_tags` is the heuristic tags of its own `title ++ " " ++ summary`, and
the enrichment stage emits exactly one informational notice. -/
theorem C7_unavailable_spec (parse : String → Except String (List Entry))
    (keywords sources : List String) :
    (∀ it ∈ pipelineItems parse none keywords sources,
      it.ai_summary = "" ∧
      it.ai_tags = infer_ai_tags (it.title ++ " " ++ it.summary)) ∧
    (∀ items : List Item, add_ai_log none items = [LogMsg.infoNoTransformers]) := by
  constructor
  · intro it hit
    rw [pipelineItems, add_ai_fields] at hit
    rcases List.mem_map.mp hit with ⟨it0, hit0, hout⟩
    have hmem : it0 ∈ collectItems parse sources keywords := by
      have hperm := stableSort_perm (fun a b => pyLe b.published a.published)
        (collectItems parse sources keywords)
      exact hperm.mem_iff.mp hit0
    rcases mem_collectItems hmem with ⟨e, url, hety⟩
    subst hety
    rw [← hout]
    exact ⟨rfl, rfl⟩
  · intro items
    rfl

/-- C7, witness: the theorem applied at the two-entry scenario, checked on
the item built from the matching entry. -/
theorem C7_witness :
    (tagsOnly (entry_to_item entryHydrogen "https://example.org/feed" ["hydrogen"])).ai_summary
        = "" ∧
    (tagsOnly (entry_to_item entryHydrogen "https://example.org/feed" ["hydrogen"])).ai_tags =
      infer_ai_tags
        ((tagsOnly (entry_to_item entryHydrogen "https://example.org/feed"
            ["hydrogen"])).title ++ " " ++
          (tagsOnly (entry_to_item entryHydrogen "https://example.org/feed"
            ["hydrogen"])).summary) :=
  (C7_unavailable_spec parseScenario ["hydrogen"] ["https://example.org/feed"]).1
    (tagsOnly (entry_to_item entryHydrogen "https://example.org/feed" ["hydrogen"]))
    (by decide)

/-! ## Claim C8 -/

theorem collectItems_append (parse : String → Except String (List Entry))
    (keywords : List String) (xs ys : List String) :
    collectItems parse (xs ++ ys) keywords =
      collectItems parse xs keywords ++ collectItems parse ys keywords := by
  rw [collectItems, collectItems, collectItems, List.map_append, List.filter_append,
    List.flatMap_append]

theorem collectItems_single (parse : String → Except String (List Entry))
    (keywords : List String) (u : String) :
    collectItems parse [u] keywords =
      if pyStrip u = "" then []
      else (fetch_feed parse (pyStrip u)).map
        (fun e => entry_to_item e (pyStrip u) keywords) := by
  rw [collectItems]
  by_cases hu : pyStrip u = ""
  · simp [hu, List.filter]
  · have hb : (pyStrip u != "") = true := bne_iff_ne.mpr hu
    simp [hu, List.filter, List.flatMap, hb]

/-- C8: a fetch or parse failure for one feed URL yields an empty entry
sequence for that source, contributing zero items, and leaves the rest of
the run — item collection and the whole pipeline over the other sources —
unchanged, with the per-URL warning logged once; blank or whitespace-only
URLs are skipped silently and fetch nothing. -/
theorem C8_fetch_failure_spec (parse : String → Except String (List Entry))
    (summarizer : Option (String → Option String)) (keywords : List String)
    (pre post : List String) (u : String) (emsg : String) :
    (parse u = Except.error emsg → fetch_feed parse u = []) ∧
    (parse (pyStrip u) = Except.error emsg →
      collectItems parse (pre ++ u :: post) keywords =
        collectItems parse (pre ++ post) keywords ∧
      pipelineItems parse summarizer keywords (pre ++ u :: post) =
        pipelineItems parse summarizer keywords (pre ++ post)) ∧
    (pyStrip u = "" →
      collectItems parse (pre ++ u :: post) keywords =
        collectItems parse (pre ++ post) keywords) ∧
    (parse u = Except.error emsg → fetch_log parse u = [LogMsg.warnFeed u]) := by
  have hsplit : ∀ h1 : collectItems parse [u] keywords = [],
      collectItems parse (pre ++ u :: post) keywords =
        collectItems parse (pre ++ post) keywords := by
    intro h1
    have h2 : pre ++ u :: post = pre ++ [u] ++ post := by simp
    rw [h2, collectItems_append, collectItems_append, h1, List.append_nil,
      ← collectItems_append]
  refine ⟨?_, ?_, ?_, ?_⟩
  · intro h
    rw [fetch_feed, h]
  · intro h
    have h1 : collectItems parse [u] keywords = [] := by
      rw [collectItems_single]
      by_cases hu : pyStrip u = ""
      · simp [hu]
      · simp [hu, fetch_feed, h]
    have hcoll := hsplit h1
    exact ⟨hcoll, by rw [pipelineItems, pipelineItems, hcoll]⟩
  · intro hu
    refine hsplit ?_
    rw [collectItems_single]
    simp [hu]
  · intro h
    rw [fetch_log, h]

/-- C8, witness: a parse function that fails on one URL and succeeds on the
others; the failing source leaves the collected items unchanged. -/
theorem C8_witness :
    collectItems
      (fun url => if url = "https://bad.example" then Except.error "dns failure"
        else Except.ok [entryWeather])
      (["https://ok.example"] ++ "https://bad.example" :: []) ["k"] =
    collectItems
      (fun url => if url = "https://bad.example" then Except.error "dns failure"
        else Except.ok [entryWeather])
      (["https://ok.example"] ++ []) ["k"] :=
  ((C8_fetch_failure_spec
    (fun url => if url = "https://bad.example" then Except.error "dns failure"
      else Except.ok [entryWeather])
    none ["k"] ["https://ok.example"] [] "https://bad.example" "dns failure").2.1
    (by rfl)).1

/-! ## Claim C9 -/

/-- C9: the RSS document renders exactly the first 50 items of the final
(sorted, enriched) list — `min 50 n` of them, in order, nothing beyond —
and each `<item>` carries the XML-escaped `title` and `link`, a
`description` that prefers `ai_summary` over `summary` and falls back to
the empty string, and a `pubDate` that is the item's `published` or, when
that is empty, the run's `generated_at` (both XML-escaped). -/
theorem C9_rss_spec (parse : String → Except String (List Entry))
    (summarizer : Option (String → Option String))
    (keywords sources : List String) (genAt : String) :
    ((rss_items genAt (pipelineItems parse summarizer keywords sources)).length =
      min 50 (pipelineItems parse summarizer keywords sources).length) ∧
    (∀ i : Nat, i < 50 →
      (rss_items genAt (pipelineItems parse summarizer keywords sources))[i]? =
        ((pipelineItems parse summarizer keywords sources)[i]?).map (rss_item genAt)) ∧
    (∀ i : Nat, 50 ≤ i →
      (rss_items genAt (pipelineItems parse summarizer keywords sources))[i]? = none) ∧
    (∀ it : Item,
      (rss_item genAt it).title = xml_escape it.title ∧
      (rss_item genAt it).link = xml_escape it.link ∧
      (rss_item genAt it).description =
        xml_escape (if it.ai_summary ≠ "" then it.ai_summary
          else if it.summary ≠ "" then it.summary else "") ∧
      (rss_item genAt it).pubDate =
        xml_escape (if it.published = "" then genAt else it.published)) := by
  refine ⟨?_, ?_, ?_, ?_⟩
  · simp [rss_items, List.length_map, List.length_take]
  · intro i hi
    rw [rss_items, List.getElem?_map, List.getElem?_take_of_lt hi]
  · intro i hi
    refine List.getElem?_eq_none ?_
    simp only [rss_items, List.length_map, List.length_take]
    omega
  · intro it
    refine ⟨rfl, rfl, ?_, ?_⟩
    · rw [rss_item]
      by_cases ha : it.ai_summary = ""
      · by_cases hs : it.summary = ""
        · simp [pyOr, ha, hs]
        · simp [pyOr, ha, hs]
      · simp [pyOr, ha]
    · rw [rss_item]
      by_cases hp : it.published = ""
      · simp [pyOr, hp]
      · simp [pyOr, hp]

/-- C9, witness: the theorem applied at the two-entry scenario and index 0:
the first RSS item is the rendering of the first pipeline item. -/
theorem C9_witness :
    (rss_items "2025-01-01T00:00:00Z"
      (pipelineItems parseScenario none ["hydrogen"] ["https://example.org/feed"]))[0]? =
      ((pipelineItems parseScenario none ["hydrogen"]
        ["https://example.org/feed"])[0]?).map (rss_item "2025-01-01T00:00:00Z") :=
  (C9_rss_spec parseScenario none ["hydrogen"] ["https://example.org/feed"]
    "2025-01-01T00:00:00Z").2.1 0 (by decide)

/-! ## Helper lemmas: date formatting -/

theorem isoformatUTC_data (t : TimeStruct) :
    (isoformatUTC t).data = isoCoreMicro t 0 ++ ['+', '0', '0', ':', '0', '0'] := by
  show (pad 4 t.year ++ '-' :: pad 2 t.month ++ '-' :: pad 2 t.day
      ++ 'T' :: pad 2 t.hour ++ ':' :: pad 2 t.minute ++ ':' :: pad 2 t.second
      ++ ['+', '0', '0', ':', '0', '0']) = _
  simp [isoCoreMicro, List.append_assoc]

theorem isoformatUTCMicro_data (t : TimeStruct) (micro : Nat) :
    (isoformatUTCMicro t micro).data =
      isoCoreMicro t micro ++ ['+', '0', '0', ':', '0', '0'] := by
  show (pad 4 t.year ++ '-' :: pad 2 t.month ++ '-' :: pad 2 t.day
      ++ 'T' :: pad 2 t.hour ++ ':' :: pad 2 t.minute ++ ':' :: pad 2 t.second
      ++ (if micro = 0 then [] else '.' :: pad 6 micro)
      ++ ['+', '0', '0', ':', '0', '0']) = _
  simp [isoCoreMicro, List.append_assoc]

theorem mem_natDigitsGo : ∀ (fuel n : Nat) (c : Char), c ∈ natDigitsGo fuel n →
    ∃ d, d < 10 ∧ c = digitChar d := by
  intro fuel
  induction fuel with
  | zero =>
    intro n c hc
    rcases List.mem_singleton.mp hc with rfl
    exact ⟨n % 10, Nat.mod_lt n (by omega), rfl⟩
  | succ f ih =>
    intro n c hc
    by_cases h10 : n < 10
    · simp only [natDigitsGo, h10, if_true] at hc
      rcases List.mem_singleton.mp hc with rfl
      exact ⟨n, h10, rfl⟩
    · simp only [natDigitsGo, h10, if_false] at hc
      rcases List.mem_append.mp hc with hc | hc
      · exact ih (n / 10) c hc
      · rcases List.mem_singleton.mp hc with rfl
        exact ⟨n % 10, Nat.mod_lt n (by omega), rfl⟩

theorem digitChar_ne_plus {d : Nat} (h : d < 10) : digitChar d ≠ '+' := by
  interval_cases d <;> decide

theorem mem_pad_ne_plus (w n : Nat) : ∀ c ∈ pad w n, c ≠ '+' := by
  intro c hc
  rcases List.mem_append.mp hc with hc | hc
  · rcases List.eq_of_mem_replicate hc with rfl
    decide
  · rcases mem_natDigitsGo n n c hc with ⟨d, hd, rfl⟩
    exact digitChar_ne_plus hd

theorem mem_isoCoreMicro_ne_plus (t : TimeStruct) (micro : Nat) :
    ∀ c ∈ isoCoreMicro t micro, c ≠ '+' := by
  intro c hc
  simp only [isoCoreMicro, List.mem_append, List.mem_cons] at hc
  rcases hc with ((((((h | h) | h) | h) | h) | h) | h)
  · exact mem_pad_ne_plus 4 t.year c h
  · rcases h with rfl | h
    · decide
    · exact mem_pad_ne_plus 2 t.month c h
  · rcases h with rfl | h
    · decide
    · exact mem_pad_ne_plus 2 t.day c h
  · rcases h with rfl | h
    · decide
    · exact mem_pad_ne_plus 2 t.hour c h
  · rcases h with rfl | h
    · decide
    · exact mem_pad_ne_plus 2 t.minute c h
  · rcases h with rfl | h
    · decide
    · exact mem_pad_ne_plus 2 t.second c h
  · by_cases hm : micro = 0
    · simp [hm] at h
    · simp only [hm, if_false, List.mem_cons] at h
      rcases h with rfl | h
      · decide
      · exact mem_pad_ne_plus 6 micro c h

theorem prefixB_refl : ∀ l : List Char, prefixB l l = true
  | [] => rfl
  | c :: t => by simp [prefixB, prefixB_refl t]

theorem replaceAllGo_tail (ps rep : List Char) :
    ∀ (core : List Char) (fuel : Nat), (∀ c ∈ core, c ≠ '+') →
      (core ++ '+' :: ps).length ≤ fuel →
      replaceAllGo ('+' :: ps) rep fuel (core ++ '+' :: ps) = core ++ rep := by
  intro core
  induction core with
  | nil =>
    intro fuel _ hf
    match fuel with
    | 0 => simp at hf
    | f + 1 =>
      show replaceAllGo ('+' :: ps) rep (f + 1) ('+' :: ps) = rep
      simp only [replaceAllGo, List.isEmpty_cons, prefixB_refl ('+' :: ps),
        Bool.not_false, Bool.and_true, Bool.and_self, if_true]
      rw [show ('+' :: ps).drop ('+' :: ps).length = [] from List.drop_length _]
      have hnil : replaceAllGo ('+' :: ps) rep f [] = [] := by
        cases f <;> rfl
      rw [hnil, List.append_nil]
  | cons c core' ih =>
    intro fuel hc hf
    match fuel with
    | 0 =>
      rw [List.cons_append, List.length_cons] at hf
      simp at hf
    | f + 1 =>
      rw [List.cons_append]
      show replaceAllGo ('+' :: ps) rep (f + 1) (c :: (core' ++ '+' :: ps)) =
        (c :: core') ++ rep
      have hcp : c ≠ '+' := hc c (List.mem_cons_self c core')
      have hpre : prefixB ('+' :: ps) (c :: (core' ++ '+' :: ps)) = false := by
        simp only [prefixB, Bool.and_eq_false_iff]
        left
        simp [beq_eq_false_iff_ne, Ne.symm hcp]
      simp only [replaceAllGo, hpre, Bool.and_false, if_false]
      rw [List.cons_append]
      refine congrArg (c :: ·) ?_
      refine ih f (fun d hd => hc d (List.mem_cons_of_mem c hd)) ?_
      rw [List.cons_append, List.length_cons] at hf
      omega

theorem replaceAll_tail (ps rep core : List Char) (h : ∀ c ∈ core, c ≠ '+') :
    replaceAll ('+' :: ps) rep (core ++ '+' :: ps) = core ++ rep :=
  replaceAllGo_tail ps rep core (core ++ '+' :: ps).length h (Nat.le_refl _)

theorem natDigitsGo_length_le : ∀ (fuel n k : Nat), n ≤ fuel → n < 10 ^ k → 1 ≤ k →
    (natDigitsGo fuel n).length ≤ k := by
  intro fuel
  induction fuel with
  | zero =>
    intro n k _ _ hk
    simp only [natDigitsGo, List.length_singleton]
    omega
  | succ f ih =>
    intro n k hn hpow hk
    by_cases h10 : n < 10
    · simp only [natDigitsGo, h10, if_true, List.length_singleton]
      omega
    · simp only [natDigitsGo, h10, if_false, List.length_append,
        List.length_singleton]
      have hk2 : 2 ≤ k := by
        by_contra hk2
        have hk1 : k = 1 := by omega
        rw [hk1, pow_one] at hpow
        omega
      have h1 : n / 10 ≤ f := by
        have := Nat.div_lt_self (by omega : 0 < n) (by omega : 1 < 10)
        omega
      have h2 : n / 10 < 10 ^ (k - 1) := by
        rw [Nat.div_lt_iff_lt_mul (by omega : 0 < 10)]
        calc n < 10 ^ k := hpow
          _ = 10 ^ (k - 1) * 10 := by
            rw [← pow_succ]
            congr 1
            omega
      have := ih (n / 10) (k - 1) h1 h2 (by omega)
      omega

theorem natDigits_length_le (n k : Nat) (h : n < 10 ^ k) (hk : 1 ≤ k) :
    (natDigits n).length ≤ k :=
  natDigitsGo_length_le n n k (Nat.le_refl n) h hk

theorem pad_length {w n : Nat} (h : (natDigits n).length ≤ w) :
    (pad w n).length = w := by
  simp only [pad, List.length_append, List.length_replicate]
  omega

theorem getLast?_tail00 (l : List Char) :
    (l ++ ['+', '0', '0', ':', '0', '0']).getLast? = some '0' := by
  rw [show (['+', '0', '0', ':', '0', '0'] : List Char) =
      ['+', '0', '0', ':', '0'] ++ ['0'] from rfl, ← List.append_assoc]
  exact List.getLast?_concat _

/-! ## Claim C10 -/

/-- C10: every item's `published` is either empty or an ISO-8601 string
ending in the explicit `+00:00` UTC offset; an `isoformatUTC` value never
ends in `Z`; `generated_at` always ends in `Z`; hence a non-empty item date
is never equal to `generated_at` (the two formats differ); and under the
`datetime` constructor's field bounds every `isoformatUTC` string has the
single fixed width 25. -/
theorem C10_date_format_spec (e : Entry) (srcUrl : String) (kws : List String)
    (now : TimeStruct) (micro : Nat) :
    ((entry_to_item e srcUrl kws).published = "" ∨
      ∃ pre : List Char, (entry_to_item e srcUrl kws).published.data =
        pre ++ ['+', '0', '0', ':', '0', '0']) ∧
    (∀ t : TimeStruct, (isoformatUTC t).data.getLast? = some '0' ∧
      ¬ (isoformatUTC t).data.getLast? = some 'Z') ∧
    (generated_at now micro).data.getLast? = some 'Z' ∧
    ((entry_to_item e srcUrl kws).published ≠ "" →
      (entry_to_item e srcUrl kws).published ≠ generated_at now micro) ∧
    (∀ t : TimeStruct, t.year ≤ 9999 → t.month ≤ 12 → t.day ≤ 31 →
      t.hour ≤ 23 → t.minute ≤ 59 → t.second ≤ 61 →
      (isoformatUTC t).length = 25) := by
  have hmatch : (entry_to_item e srcUrl kws).published =
      (match e.published_parsed <|> e.updated_parsed with
        | some t => isoformatUTC t
        | none => "") := rfl
  have hpub : (entry_to_item e srcUrl kws).published = "" ∨
      ∃ pre : List Char, (entry_to_item e srcUrl kws).published.data =
        pre ++ ['+', '0', '0', ':', '0', '0'] := by
    rw [hmatch]
    cases hp : e.published_parsed <|> e.updated_parsed with
    | none => exact Or.inl rfl
    | some t => exact Or.inr ⟨isoCoreMicro t 0, isoformatUTC_data t⟩
  have hgen : (generated_at now micro).data.getLast? = some 'Z' := by
    show (replaceAll "+00:00".data "Z".data (isoformatUTCMicro now micro).data).getLast?
      = some 'Z'
    rw [isoformatUTCMicro_data]
    have hrepl : replaceAll ('+' :: ['0', '0', ':', '0', '0']) ['Z']
        (isoCoreMicro now micro ++ '+' :: ['0', '0', ':', '0', '0']) =
        isoCoreMicro now micro ++ ['Z'] :=
      replaceAll_tail ['0', '0', ':', '0', '0'] ['Z'] (isoCoreMicro now micro)
        (mem_isoCoreMicro_ne_plus now micro)
    rw [show (isoCoreMicro now micro ++ ['+', '0', '0', ':', '0', '0'] : List Char) =
        isoCoreMicro now micro ++ '+' :: ['0', '0', ':', '0', '0'] from rfl]
    rw [show ("+00:00".data : List Char) = '+' :: ['0', '0', ':', '0', '0'] from rfl]
    rw [show ("Z".data : List Char) = ['Z'] from rfl]
    rw [hrepl]
    exact List.getLast?_concat _
  refine ⟨hpub, ?_, hgen, ?_, ?_⟩
  · intro t
    rw [isoformatUTC_data]
    refine ⟨getLast?_tail00 _, ?_⟩
    rw [getLast?_tail00]
    simp
  · intro hne heq
    rcases hpub with hp | ⟨pre, hdata⟩
    · exact hne hp
    · have h0 : (entry_to_item e srcUrl kws).published.data.getLast? = some '0' := by
        rw [hdata]
        exact getLast?_tail00 pre
      rw [heq, hgen] at h0
      simp at h0
  · intro t hy hmo hd hh hmi hs
    have h4 : (10 : Nat) ^ 4 = 10000 := by norm_num
    have h2 : (10 : Nat) ^ 2 = 100 := by norm_num
    have hy4 : (pad 4 t.year).length = 4 :=
      pad_length (natDigits_length_le t.year 4 (by omega) (by omega))
    have hmo2 : (pad 2 t.month).length = 2 :=
      pad_length (natDigits_length_le t.month 2 (by omega) (by omega))
    have hd2 : (pad 2 t.day).length = 2 :=
      pad_length (natDigits_length_le t.day 2 (by omega) (by omega))
    have hh2 : (pad 2 t.hour).length = 2 :=
      pad_length (natDigits_length_le t.hour 2 (by omega) (by omega))
    have hmi2 : (pad 2 t.minute).length = 2 :=
      pad_length (natDigits_length_le t.minute 2 (by omega) (by omega))
    have hs2 : (pad 2 t.second).length = 2 :=
      pad_length (natDigits_length_le t.second 2 (by omega) (by omega))
    show (isoformatUTC t).data.length = 25
    rw [isoformatUTC_data]
    simp only [isoCoreMicro, if_pos rfl, List.append_nil, List.length_append,
      List.length_cons, hy4, hmo2, hd2, hh2, hmi2, hs2]
    simp

/-- C10, witness: the theorem applied at a concrete entry (parsed date
March 1 2024), run instant and field bounds. -/
theorem C10_witness :
    ((entry_to_item { published_parsed := some ⟨2024, 3, 1, 7, 5, 9⟩ } "u" []).published ≠
      generated_at ⟨2025, 1, 2, 3, 4, 5⟩ 123456) ∧
    (isoformatUTC ⟨2024, 3, 1, 7, 5, 9⟩).length = 25 :=
  ⟨(C10_date_format_spec { published_parsed := some ⟨2024, 3, 1, 7, 5, 9⟩ } "u" []
      ⟨2025, 1, 2, 3, 4, 5⟩ 123456).2.2.2.1 (by decide),
   (C10_date_format_spec { published_parsed := some ⟨2024, 3, 1, 7, 5, 9⟩ } "u" []
      ⟨2025, 1, 2, 3, 4, 5⟩ 123456).2.2.2.2 ⟨2024, 3, 1, 7, 5, 9⟩
      (by decide) (by decide) (by decide) (by decide) (by decide) (by decide)⟩

end Scraper
